import Mathlib

/-!
# Verification of the Slack request-extraction pipeline (`main.py`)

Shallow embedding of the core logic of `main.py`:

* `normalize_due_date` (main.py lines 38-122): rule-based normalization of
  Japanese relative date expressions;
* the due-date post-processing loop of `extract_info_with_gemini`
  (lines 224-230);
* the batch validation in `slack_bot_handler` (lines 484-497) and the
  too-long-message gate (lines 428-437);
* `write_to_spreadsheet` (lines 243-332): sequence-number assignment and
  row construction against the backing spreadsheet.

External collaborators (Slack SDK, Vertex AI, gspread) are modelled at their
interfaces: the language model is a parameter producing a record batch, the
spreadsheet is a list of rows of strings (gspread's `get_all_values` returns
every cell as a string; `append_row` serializes integers in decimal and
`None` as an empty cell).
-/

namespace SejBot

/-! ## Python character/string primitives

Only the character classes that the program's data can exercise are modelled:
ASCII plus the full-width digits ０-９ that the code explicitly handles.
-/

/-- Python whitespace (`str.strip`, `\s`), restricted to the ASCII whitespace
characters: space, tab, newline, vertical tab, form feed, carriage return. -/
def pyIsSpace (c : Char) : Bool :=
  c = ' ' || c = Char.ofNat 9 || c = Char.ofNat 10 || c = Char.ofNat 11 ||
  c = Char.ofNat 12 || c = Char.ofNat 13

/-- The digits matched by the explicit class `[０-９0-9]` in the code's
patterns (and the digit forms relevant to `\d` / `str.isdigit` here):
ASCII `0-9` and full-width `０-９` (U+FF10..U+FF19). -/
def isDigitFW (c : Char) : Bool :=
  c.isDigit || (0xFF10 ≤ c.toNat && c.toNat ≤ 0xFF19)

/-- `str.maketrans('０１２３４５６７８９', '0123456789')` applied per character:
full-width digits are mapped to ASCII, everything else is unchanged. -/
def toHalfwidth (c : Char) : Char :=
  if 0xFF10 ≤ c.toNat ∧ c.toNat ≤ 0xFF19 then Char.ofNat (c.toNat - 0xFEE0) else c

/-- ASCII lower-casing (Python `str.lower`; sufficient here because the
result is only compared against the ASCII strings "null"/"none"/""). -/
def lowerChar (c : Char) : Char :=
  if 'A' ≤ c ∧ c ≤ 'Z' then Char.ofNat (c.toNat + 32) else c

/-- Python `str.lower` on a whole string. -/
def pyLower (s : String) : String := ⟨s.data.map lowerChar⟩

/-- Numeric value of an ASCII digit character. -/
def digitVal (c : Char) : Nat := c.toNat - 48

/-- Value of a decimal digit string (most significant first). -/
def natOfDigits (ds : List Char) : Nat :=
  ds.foldl (fun a c => a * 10 + digitVal c) 0

/-- Python `int(s)` on a string of ASCII digits; `none` models `ValueError`. -/
def pyInt? (ds : List Char) : Option Nat :=
  if ds.isEmpty then none
  else if ds.all Char.isDigit then some (natOfDigits ds) else none

/-- `str.strip()`: drop whitespace from both ends. -/
def pyStrip (l : List Char) : List Char :=
  ((l.dropWhile pyIsSpace).reverse.dropWhile pyIsSpace).reverse

/-- Is `needle` a prefix of `hay`? -/
def isPrefixCh : List Char → List Char → Bool
  | [], _ => true
  | _ :: _, [] => false
  | a :: as, b :: bs => a = b && isPrefixCh as bs

/-- Does `hay` contain `needle` as a contiguous substring?  Models a
`re.search` for a fixed literal pattern. -/
def containsSub (needle : List Char) : List Char → Bool
  | [] => needle.isEmpty
  | b :: bs => isPrefixCh needle (b :: bs) || containsSub needle bs

/-- The ASCII digit character for a value `k < 10`. -/
def digitChar (k : Nat) : Char := Char.ofNat (48 + k)

/-- Decimal digits of `n`, most significant first (fuel-driven so that the
definition reduces in the kernel; fuel `n+1` always suffices). -/
def natDigitsAux : Nat → Nat → List Char
  | 0, _ => []
  | f + 1, n =>
    if n < 10 then [digitChar n]
    else natDigitsAux f (n / 10) ++ [digitChar (n % 10)]

/-- Decimal digits of `n`, most significant first. -/
def natDigits (n : Nat) : List Char := natDigitsAux (n + 1) n

/-- Python `str(n)` for a non-negative integer: plain decimal notation. -/
def natToStr (n : Nat) : String := ⟨natDigits n⟩

/-- The same number written in full-width digits ０-９. -/
def natToStrFW (n : Nat) : String :=
  ⟨(natDigits n).map (fun c => Char.ofNat (c.toNat + 0xFEE0))⟩

/-! ## Calendar model

`datetime` / `calendar.monthrange` arithmetic on the proleptic Gregorian
calendar, as CPython implements it: ordinal day counts from 0001-01-01
(ordinal 1, a Monday, so `weekday` = Monday 0 … Sunday 6). -/

/-- A calendar date (the `datetime.now()` value, time-of-day irrelevant). -/
structure Date where
  year : Nat
  month : Nat
  day : Nat
deriving DecidableEq

/-- Gregorian leap year (as used by `calendar.monthrange`). -/
def isLeap (y : Nat) : Bool :=
  (y % 4 = 0 && y % 100 ≠ 0) || y % 400 = 0

/-- `calendar.monthrange(y, m).1`: number of days in month `m` of year `y`. -/
def daysInMonth (y m : Nat) : Nat :=
  if m = 2 then (if isLeap y then 29 else 28)
  else if m = 4 ∨ m = 6 ∨ m = 9 ∨ m = 11 then 30
  else 31

/-- Days in year `y` strictly before month `m` (CPython `_days_before_month`). -/
def daysBeforeMonth (y : Nat) : Nat → Nat
  | 0 => 0
  | m + 1 => if m = 0 then 0 else daysBeforeMonth y m + daysInMonth y m

/-- Days before January 1 of year `y` (CPython `_days_before_year`). -/
def daysBeforeYear (y : Nat) : Nat :=
  let k := y - 1
  k * 365 + k / 4 - k / 100 + k / 400

/-- `date.toordinal()`: 0001-01-01 is ordinal 1. -/
def toOrdinal (d : Date) : Nat :=
  daysBeforeYear d.year + daysBeforeMonth d.year d.month + d.day

/-- `date.weekday()`: Monday = 0 … Sunday = 6. -/
def weekday (d : Date) : Nat := (toOrdinal d + 6) % 7

/-- The day after `d` in the Gregorian calendar. -/
def nextDay (d : Date) : Date :=
  if d.day < daysInMonth d.year d.month then ⟨d.year, d.month, d.day + 1⟩
  else if d.month < 12 then ⟨d.year, d.month + 1, 1⟩
  else ⟨d.year + 1, 1, 1⟩

/-- `d + timedelta(days = n)` for `n ≥ 0`. -/
def addDays (n : Nat) (d : Date) : Date := nextDay^[n] d

/-- A well-formed `datetime.date` value (years start at 1). -/
def validDate (d : Date) : Prop :=
  1 ≤ d.year ∧ 1 ≤ d.month ∧ d.month ≤ 12 ∧ 1 ≤ d.day ∧
    d.day ≤ daysInMonth d.year d.month

instance (d : Date) : Decidable (validDate d) := by
  unfold validDate; infer_instance

/-- Python `f"{n:02d}"`: zero-pad to at least two digits. -/
def pad2 (n : Nat) : String := if n < 10 then "0" ++ natToStr n else natToStr n

/-- The date format the code emits: `f"{y}-{m:02d}-{d:02d}"`
(also `strftime("%Y-%m-%d")` for the years in question). -/
def fmtYMD (y m d : Nat) : String :=
  natToStr y ++ "-" ++ pad2 m ++ "-" ++ pad2 d

/-- Format a `Date` as `YYYY-MM-DD`. -/
def fmtDate (d : Date) : String := fmtYMD d.year d.month d.day

/-! ## The Date Normalizer (`normalize_due_date`, main.py lines 38-122) -/

/-- `re.match(r'^\d{4}-\d{2}-\d{2}$', s)`: anchored at the start, and `$`
also accepts a single trailing newline. -/
def matchesYMD : List Char → Bool
  | a :: b :: c :: d :: '-' :: e :: f :: '-' :: g :: h :: rest =>
    ([a, b, c, d, e, f, g, h].all isDigitFW) && (rest = [] || rest = ['\n'])
  | _ => false

/-- `re.search` for a pattern `([０-９0-9]+)marker(alt₁|alt₂|…)`:
scan left to right; at a digit, take the maximal digit run, require `marker`
and then one of the suffix alternatives (tried in order); on failure advance
the start position by one character.  Returns the digit group and the suffix
that matched. -/
def searchNumPat (marker : Char) (sfxs : List (List Char)) :
    List Char → Option (List Char × List Char)
  | [] => none
  | c :: rest =>
    if isDigitFW c then
      let run := c :: rest.takeWhile isDigitFW
      match rest.dropWhile isDigitFW with
      | m :: a2 =>
        if m = marker then
          match sfxs.find? (fun s => isPrefixCh s a2) with
          | some s => some (run, s)
          | none => searchNumPat marker sfxs rest
        else searchNumPat marker sfxs rest
      | [] => searchNumPat marker sfxs rest
    else searchNumPat marker sfxs rest

/-- The patterns tried after the `○月` pattern (main.py lines 80-122):
`今月(末|中|まで)`, `来月(末|中|まで)?`, `来週(末|まで)?`, `今週(末|まで)`,
`([０-９0-9]+)日(後|以内|まで)`, else pass the string through unchanged.

This is the *value* component of those branches: the branches that add a
`timedelta` to `now` (lines 98, 104 and 115) can also raise an uncaught
`OverflowError` when the target passes the `datetime` bounds — the
surrounding `try` catches only `ValueError`.  `normalizeTailRaises` below
mirrors this cascade branch for branch and decides exactly when that
happens; on non-raising executions the program returns the value computed
here. -/
def normalizeTail (now : Date) (s : String) : Option String :=
  if containsSub ['今', '月', '末'] s.data || containsSub ['今', '月', '中'] s.data ||
      containsSub ['今', '月', 'ま', 'で'] s.data then
    some (fmtYMD now.year now.month (daysInMonth now.year now.month))
  else if containsSub ['来', '月'] s.data then
    (if now.month + 1 > 12 then
      some (fmtYMD (now.year + 1) 1 (daysInMonth (now.year + 1) 1))
    else
      some (fmtYMD now.year (now.month + 1) (daysInMonth now.year (now.month + 1))))
  else if containsSub ['来', '週'] s.data then
    some (fmtDate (addDays (7 - weekday now + 6) now))
  else if containsSub ['今', '週', '末'] s.data || containsSub ['今', '週', 'ま', 'で'] s.data then
    some (fmtDate (addDays (6 - weekday now) now))
  else
    match searchNumPat '日' [['後'], ['以', '内'], ['ま', 'で']] s.data with
    | some (run, _) =>
      match pyInt? (run.map toHalfwidth) with
      | some days => some (fmtDate (addDays days now))
      | none => some s
    | none => some s

/-- `normalize_due_date` (main.py lines 38-122).  `now` is the value of
`datetime.now()`; the input `none` models Python `None`.

Value component: this is what the function returns when it does not raise.
The companion `normalize_due_date_raises` decides when the Python function
raises instead (an `OverflowError` escaping the date additions; the only
guarded exception, `ValueError` from `int`, is unreachable — see
`pyInt?_isSome_of_digits`). -/
def normalize_due_date (now : Date) : Option String → Option String
  | none => none
  | some s =>
    if s = "" ∨ pyLower s ∈ (["null", "none", ""] : List String) then none
    else if matchesYMD s.data then some s
    else
      match searchNumPat '月' [['中'], ['末'], ['ま', 'で']] s.data with
      | some (run, sfx) =>
        match pyInt? (run.map toHalfwidth) with
        | some month =>
          if 1 ≤ month ∧ month ≤ 12 then
            if sfx = ['末'] then
              some (fmtYMD now.year month (daysInMonth now.year month))
            else if sfx = ['中'] ∨ sfx = ['ま', 'で'] then
              some (fmtYMD now.year month (daysInMonth now.year month))
            else normalizeTail now s
          else normalizeTail now s
        | none => normalizeTail now s
      | none => normalizeTail now s

/-! ### The exception behaviour of the normalizer

`datetime` arithmetic is bounded: `timedelta(days=d)` requires
`d ≤ 999 999 999`, and a date addition whose result passes 9999-12-31
(ordinal 3652059) raises `OverflowError`.  The code guards the days branch
with `except ValueError` only (main.py lines 113-118), so an
`OverflowError` from `now + timedelta(...)` escapes `normalize_due_date`
uncaught. -/

/-- `timedelta(days=d)` raises `OverflowError` for `d` beyond this bound. -/
def timedeltaMaxDays : Nat := 999999999

/-- `date.max.toordinal()`: the ordinal of 9999-12-31, the largest value a
Python `date`/`datetime` can hold. -/
def dateMaxOrdinal : Nat := 3652059

/-- Does `now + timedelta(days=days)` (with `days ≥ 0`) raise
`OverflowError`?  Either the `timedelta` constructor overflows or the
resulting date passes 9999-12-31. -/
def dateAddRaises (now : Date) (days : Nat) : Bool :=
  days > timedeltaMaxDays || toOrdinal now + days > dateMaxOrdinal

/-- Branch-for-branch mirror of `normalizeTail` deciding whether the
execution raises: only the three branches that perform date addition can,
and only via `dateAddRaises`. -/
def normalizeTailRaises (now : Date) (s : String) : Bool :=
  if containsSub ['今', '月', '末'] s.data || containsSub ['今', '月', '中'] s.data ||
      containsSub ['今', '月', 'ま', 'で'] s.data then
    false
  else if containsSub ['来', '月'] s.data then
    false
  else if containsSub ['来', '週'] s.data then
    dateAddRaises now (7 - weekday now + 6)
  else if containsSub ['今', '週', '末'] s.data || containsSub ['今', '週', 'ま', 'で'] s.data then
    dateAddRaises now (6 - weekday now)
  else
    match searchNumPat '日' [['後'], ['以', '内'], ['ま', 'で']] s.data with
    | some (run, _) =>
      match pyInt? (run.map toHalfwidth) with
      | some days => dateAddRaises now days
      | none => false
    | none => false

/-- Branch-for-branch mirror of `normalize_due_date` deciding whether the
Python function raises on the given input: `true` exactly when control
reaches a date addition that overflows. -/
def normalize_due_date_raises (now : Date) : Option String → Bool
  | none => false
  | some s =>
    if s = "" ∨ pyLower s ∈ (["null", "none", ""] : List String) then false
    else if matchesYMD s.data then false
    else
      match searchNumPat '月' [['中'], ['末'], ['ま', 'で']] s.data with
      | some (run, sfx) =>
        match pyInt? (run.map toHalfwidth) with
        | some month =>
          if 1 ≤ month ∧ month ≤ 12 then
            if sfx = ['末'] then false
            else if sfx = ['中'] ∨ sfx = ['ま', 'で'] then false
            else normalizeTailRaises now s
          else normalizeTailRaises now s
        | none => normalizeTailRaises now s
      | none => normalizeTailRaises now s

/-! ## Extracted records (the JSON objects produced by the language model)

A record is the dictionary the model returns.  `none` models both a JSON
`null` value and an absent key (the code treats them alike at every point it
reads these fields: truthiness tests and `.get(..., "")` against cells that
serialize `None` as an empty cell).  A tags entry of `none` models a `null`
inside the tags array. -/
structure InquiryRecord where
  target_name : Option String
  target_email : Option String
  tags : List (Option String)
  details : Option String
  due_date : Option String
deriving DecidableEq

/-- The due-date post-processing loop of `extract_info_with_gemini`
(main.py lines 224-230): for each item, if `"due_date" in item and
item["due_date"]` (present and truthy, i.e. a non-empty string), replace it
by `normalize_due_date(item["due_date"])`; otherwise leave the item alone.

Value component: should `normalize_due_date` raise on some item (see
`normalize_due_date_raises`), the loop re-raises out of
`extract_info_with_gemini`; `applyDueDateNormalizationRaises` decides
that. -/
def applyDueDateNormalization (now : Date) (batch : List InquiryRecord) :
    List InquiryRecord :=
  batch.map fun item =>
    match item.due_date with
    | some s => if s = "" then item else { item with due_date := normalize_due_date now (some s) }
    | none => item

/-- Whether the due-date loop raises: some item reaches the normalizer and
the normalizer raises on it. -/
def applyDueDateNormalizationRaises (now : Date) (batch : List InquiryRecord) : Bool :=
  batch.any fun item =>
    match item.due_date with
    | some s => if s = "" then false else normalize_due_date_raises now (some s)
    | none => false

/-! ## Record validation (`slack_bot_handler`, main.py lines 484-497) -/

/-- The account-management marker tag. -/
def markerTag : String := "アカウント管理"

/-- Rejection message for an empty batch (main.py line 486). -/
def msgEmpty : String := "情報を正しく読み取れませんでした。再度入力してください"

/-- Rejection message for a missing email on an account-management request
(main.py line 495). -/
def msgEmail : String :=
  "アカウント管理の依頼には対象者のメールアドレスが必要です。メールアドレスを含めて再度入力してください"

/-- `"アカウント管理" in tags` (Python `in` compares against each entry). -/
def hasMarker (r : InquiryRecord) : Bool := r.tags.contains (some markerTag)

/-- `not item.get("target_email")`: absent, `null`, or empty string. -/
def emailMissing (r : InquiryRecord) : Bool :=
  match r.target_email with
  | none => true
  | some s => s = ""

/-- A record that triggers the email-required rejection. -/
def violatesEmailRule (r : InquiryRecord) : Bool := hasMarker r && emailMissing r

inductive ValidationResult where
  | accepted
  | rejected (msg : String)
deriving DecidableEq

/-- The validation performed inline in `slack_bot_handler`
(main.py lines 484-497): an empty batch is rejected with `msgEmpty`;
otherwise the records are scanned in order and the first record whose tags
contain the marker while `target_email` is falsy rejects the whole batch
with `msgEmail`. -/
def validateBatch (batch : List InquiryRecord) : ValidationResult :=
  if batch.isEmpty then .rejected msgEmpty
  else
    match batch.find? violatesEmailRule with
    | some _ => .rejected msgEmail
    | none => .accepted

/-! ## Sequencer / persister (`write_to_spreadsheet`, main.py lines 243-332)

The backing store is the spreadsheet as `get_all_values` returns it: a list
of rows, each a list of cell strings. -/

/-- A spreadsheet row as read back by `get_all_values`. -/
abbrev StoreRow := List String

/-- The backing spreadsheet. -/
abbrev Store := List StoreRow

/-- One iteration of the max-sequence scan (main.py lines 278-286): skip the
row if it is empty or its first cell is falsy; otherwise strip the cell and,
if `isdigit()` holds, parse it.  `none` means the row is skipped. -/
def parseCell? (row : StoreRow) : Option Nat :=
  match row with
  | [] => none
  | c :: _ =>
    if c = "" then none
    else
      let t := pyStrip c.data
      if t.isEmpty then none
      else if t.all isDigitFW then some (natOfDigits (t.map toHalfwidth))
      else none

/-- The fold performed by the `for row in existing_rows[1:]` loop. -/
def maxStep (acc : Nat) (row : StoreRow) : Nat :=
  match parseCell? row with
  | some n => max acc n
  | none => acc

/-- `max_inquiry_no` (main.py lines 275-286): 0, then, when the store has
more than one row, fold the scan over every row after the header. -/
def maxInquiryNo (store : Store) : Nat :=
  if store.length > 1 then (store.drop 1).foldl maxStep 0 else 0

/-- The tag-slot comprehension (main.py line 301):
`[tags[i] if i < len(tags) and tags[i] else "" for i in range(5)]`. -/
def tagSlots (tags : List (Option String)) : List String :=
  (List.range 5).map fun i =>
    match tags.get? i with
    | some (some t) => if t = "" then "" else t
    | _ => ""

/-- `row_data` (main.py lines 303-318): sequence number, timestamp,
inquirer, source link, the 5 tag slots, target name, target email, due
date, details, original message.  Optional fields land as empty cells. -/
def buildRow (no : Nat) (ts inquirer url : String) (r : InquiryRecord)
    (original : String) : StoreRow :=
  [natToStr no, ts, inquirer, url] ++ tagSlots r.tags ++
    [r.target_name.getD "", r.target_email.getD "", r.due_date.getD "",
     r.details.getD "", original]

/-- The append loop (main.py lines 295-324): the record at 0-based offset
`i` (starting from `idx`) is appended as a row with sequence number
`m + idx + i + 1`. -/
def buildRows (m : Nat) (ts inquirer url original : String) :
    Nat → List InquiryRecord → List StoreRow
  | _, [] => []
  | idx, r :: rest =>
    buildRow (m + idx + 1) ts inquirer url r original ::
      buildRows m ts inquirer url original (idx + 1) rest

/-- `write_to_spreadsheet` (main.py lines 243-332): read the current
maximum sequence number, append one row per record in batch order, and
return the new store together with the written row positions and the
written sequence numbers (the code recomputes the latter in a second loop
over `range(len(extracted_data_list))`). -/
def write_to_spreadsheet (inquirer : String) (batch : List InquiryRecord)
    (original url ts : String) (store : Store) :
    Store × List Nat × List Nat :=
  let m := maxInquiryNo store
  let rows := buildRows m ts inquirer url original 0 batch
  let rowNums := (List.range batch.length).map fun i => store.length + i + 1
  let nos := (List.range batch.length).map fun i => m + i + 1
  (store ++ rows, rowNums, nos)

/-! ## Handler-level flow (`slack_bot_handler`, main.py lines 420-500) -/

/-- Outcome of validation plus persistence for one batch. -/
inductive BatchOutcome where
  | rejectedEmpty (reply : String)
  | rejectedEmail (reply : String)
  | persisted (rowNums seqNums : List Nat)
deriving DecidableEq

/-- Main.py lines 484-500: validate the batch, and only if both checks pass
hand it unchanged to `write_to_spreadsheet`.  Returns the outcome (with the
reply sent for a rejection) and the resulting store; on any rejection the
store is returned untouched. -/
def validateAndPersist (inquirer : String) (batch : List InquiryRecord)
    (original url ts : String) (store : Store) : BatchOutcome × Store :=
  match validateBatch batch with
  | .rejected m =>
    if m = msgEmpty then (.rejectedEmpty m, store) else (.rejectedEmail m, store)
  | .accepted =>
    let (newStore, rowNums, nos) := write_to_spreadsheet inquirer batch original url ts store
    (.persisted rowNums nos, newStore)

/-- A mention character inside `<@...>`: the class `[A-Z0-9]`. -/
def isMentionChar (c : Char) : Bool :=
  ('A' ≤ c && c ≤ 'Z') || ('0' ≤ c && c ≤ '9')

/-- Try to match `@[A-Z0-9]+>\s*` at the head of the list (the part of the
mention pattern after `<`); on success return the remainder after the
consumed whitespace. -/
def mentionAt : List Char → Option (List Char)
  | '@' :: rest =>
    let run := rest.takeWhile isMentionChar
    let after := rest.dropWhile isMentionChar
    if run.isEmpty then none
    else
      match after with
      | '>' :: r2 => some (r2.dropWhile pyIsSpace)
      | _ => none
  | _ => none

/-- `re.sub(r"<@[A-Z0-9]+>\s*", "", text)` (main.py line 428): every
occurrence of a mention token, together with the whitespace that follows
it, is removed.  Fuel-driven scan; fuel `l.length` always suffices because
every step consumes at least one character. -/
def subMentionsAux : Nat → List Char → List Char
  | 0, l => l
  | _ + 1, [] => []
  | f + 1, c :: rest =>
    if c = '<' then
      match mentionAt rest with
      | some r2 => subMentionsAux f r2
      | none => c :: subMentionsAux f rest
    else c :: subMentionsAux f rest

/-- Remove every `<@...>` mention token (with trailing whitespace). -/
def subMentions (l : List Char) : List Char := subMentionsAux l.length l

/-- Main.py line 428: `re.sub(r"<@[A-Z0-9]+>\s*", "", text).strip()`. -/
def cleanedText (text : String) : String := ⟨pyStrip (subMentions text.data)⟩

/-- The too-long reply (main.py line 434). -/
def tooLongReply (n : Nat) : String :=
  "お問合せの内容が長すぎます（" ++ natToStr n ++
    "文字）。1000文字以内で再度入力してください。"

/-- Result of handling one mention event (the part of the handler modelled
here: the length gate, then extraction, validation and persistence). -/
inductive MentionResult where
  | tooLong (reply : String)
  | handled (outcome : BatchOutcome)
deriving DecidableEq

/-- Main.py lines 428-500 with the external collaborators abstracted:
`extractor` stands for `extract_info_with_gemini` (the language-model call
followed by the due-date normalization loop).  The cleaned text is length
checked (line 433); past the gate it is both what the extractor sees and
the `original_message` that is persisted.  Returns the result, the HTTP
status, and the store after the call. -/
def handleMention (extractor : String → List InquiryRecord)
    (inquirer url ts : String) (text : String) (store : Store) :
    MentionResult × Nat × Store :=
  let t := cleanedText text
  if t.length > 1000 then (.tooLong (tooLongReply t.length), 200, store)
  else
    let batch := extractor t
    let (outcome, store2) := validateAndPersist inquirer batch t url ts store
    (.handled outcome, 200, store2)

/-! ### Claim-side comparator for C10

The claim describes the length check as applying after "removal of the
leading bot-mention token and surrounding whitespace". -/

/-- Modelled from the spec claim's words: remove only the *leading* mention
token (after any leading whitespace) together with the whitespace around
it, then strip. -/
def leadingMentionStrip (text : String) : String :=
  match text.data.dropWhile pyIsSpace with
  | '<' :: rest =>
    match mentionAt rest with
    | some r2 => ⟨pyStrip r2⟩
    | none => ⟨pyStrip text.data⟩
  | _ => ⟨pyStrip text.data⟩

/-! ## Iterated persistence (for the lifetime invariant of C9) -/

/-- One persist invocation: the inquirer/message/link/timestamp metadata
together with the validated batch it writes. -/
structure PersistOp where
  inquirer : String
  batch : List InquiryRecord
  original : String
  url : String
  ts : String
deriving DecidableEq

/-- The store after running one persist operation. -/
def applyOp (op : PersistOp) (store : Store) : Store :=
  (write_to_spreadsheet op.inquirer op.batch op.original op.url op.ts store).1

/-- The sequence numbers one persist operation assigns. -/
def opSeqNums (op : PersistOp) (store : Store) : List Nat :=
  (write_to_spreadsheet op.inquirer op.batch op.original op.url op.ts store).2.2

/-- All sequence numbers assigned by a series of persist operations run one
after another, in assignment order.  The store is threaded through the
operations and touched by nothing else (the store collaborator appends in
order and never deletes or reorders). -/
def runAssigned : List PersistOp → Store → List Nat
  | [], _ => []
  | op :: rest, store => opSeqNums op store ++ runAssigned rest (applyOp op store)

/-! ## Helper lemmas: decimal digit strings -/

/-- The ten ASCII digit characters. -/
def asciiDigits : List Char := ['0', '1', '2', '3', '4', '5', '6', '7', '8', '9']

theorem digitChar_mem (k : Nat) (hk : k < 10) : digitChar k ∈ asciiDigits := by
  interval_cases k <;> decide

theorem digitVal_digitChar (k : Nat) (hk : k < 10) : digitVal (digitChar k) = k := by
  interval_cases k <;> decide

theorem asciiDigit_not_space {c : Char} (h : c ∈ asciiDigits) : pyIsSpace c = false := by
  fin_cases h <;> decide

theorem asciiDigit_isDigitFW {c : Char} (h : c ∈ asciiDigits) : isDigitFW c = true := by
  fin_cases h <;> decide

theorem asciiDigit_toHalfwidth {c : Char} (h : c ∈ asciiDigits) : toHalfwidth c = c := by
  fin_cases h <;> decide

theorem natOfDigits_append (xs : List Char) (c : Char) :
    natOfDigits (xs ++ [c]) = natOfDigits xs * 10 + digitVal c := by
  simp [natOfDigits, List.foldl_append]

/-- Core property of the decimal printer: given sufficient fuel, the digit
list is nonempty, made of ASCII digits, and parses back to the value. -/
theorem natDigitsAux_spec :
    ∀ f n, n < f →
      natDigitsAux f n ≠ [] ∧ (∀ c ∈ natDigitsAux f n, c ∈ asciiDigits) ∧
        natOfDigits (natDigitsAux f n) = n := by
  intro f
  induction f with
  | zero => intro n hn; omega
  | succ f ih =>
    intro n hn
    by_cases h : n < 10
    · refine ⟨by simp [natDigitsAux, h], ?_, ?_⟩
      · intro c hc
        simp [natDigitsAux, h] at hc
        exact hc ▸ digitChar_mem n h
      · simp [natDigitsAux, h, natOfDigits, digitVal_digitChar n h]
    · have hrec : n / 10 < f := by omega
      obtain ⟨h1, h2, h3⟩ := ih (n / 10) hrec
      refine ⟨by simp [natDigitsAux, h], ?_, ?_⟩
      · intro c hc
        simp only [natDigitsAux, if_neg h, List.mem_append, List.mem_singleton] at hc
        rcases hc with hc | hc
        · exact h2 c hc
        · exact hc ▸ digitChar_mem (n % 10) (by omega)
      · simp only [natDigitsAux, if_neg h]
        rw [natOfDigits_append, h3, digitVal_digitChar (n % 10) (by omega)]
        omega

theorem natDigits_spec (n : Nat) :
    natDigits n ≠ [] ∧ (∀ c ∈ natDigits n, c ∈ asciiDigits) ∧
      natOfDigits (natDigits n) = n :=
  natDigitsAux_spec (n + 1) n (by omega)

theorem dropWhile_eq_self_of_none (p : Char → Bool) (l : List Char)
    (h : ∀ c ∈ l, p c = false) : l.dropWhile p = l := by
  cases l with
  | nil => rfl
  | cons a t => simp [List.dropWhile, h a (by simp)]

theorem pyStrip_eq_self (l : List Char) (h : ∀ c ∈ l, pyIsSpace c = false) :
    pyStrip l = l := by
  unfold pyStrip
  rw [dropWhile_eq_self_of_none _ _ h,
      dropWhile_eq_self_of_none _ _ (fun c hc => h c (List.mem_reverse.mp hc)),
      List.reverse_reverse]

/-- The first cell of a built row always reads back as its sequence
number: `str(no)` is nonempty, whitespace-free, all digits, and parses. -/
theorem parseCell?_buildRow (no : Nat) (ts inquirer url : String)
    (r : InquiryRecord) (original : String) :
    parseCell? (buildRow no ts inquirer url r original) = some no := by
  obtain ⟨h1, h2, h3⟩ := natDigits_spec no
  have hrow : buildRow no ts inquirer url r original =
      natToStr no :: ([ts, inquirer, url] ++ tagSlots r.tags ++
        [r.target_name.getD "", r.target_email.getD "", r.due_date.getD "",
         r.details.getD "", original]) := by
    simp [buildRow]
  rw [hrow]
  have hne : natToStr no ≠ "" := by
    intro hcon
    exact h1 (congrArg String.data hcon)
  have hdata : (natToStr no).data = natDigits no := rfl
  have hstrip : pyStrip (natToStr no).data = natDigits no := by
    rw [hdata]
    exact pyStrip_eq_self _ (fun c hc => asciiDigit_not_space (h2 c hc))
  simp only [parseCell?]
  rw [if_neg hne, hstrip]
  rw [if_neg (by simpa [List.isEmpty_iff] using h1)]
  rw [if_pos (by
    rw [List.all_eq_true]
    intro c hc
    exact asciiDigit_isDigitFW (h2 c hc))]
  have hmap : (natDigits no).map toHalfwidth = natDigits no := by
    rw [List.map_congr_left (fun c hc => asciiDigit_toHalfwidth (h2 c hc))]
    simp
  rw [hmap, h3]

/-! ## Helper lemmas: the max-sequence scan and the append loop -/

theorem foldl_maxStep_init (l : List StoreRow) (a : Nat) :
    l.foldl maxStep a = max a (l.foldl maxStep 0) := by
  induction l generalizing a with
  | nil => simp
  | cons r t ih =>
    simp only [List.foldl_cons]
    cases hp : parseCell? r with
    | none => simp only [maxStep, hp]; exact ih a
    | some n =>
      simp only [maxStep, hp]
      rw [ih (max a n), ih (max 0 n)]
      omega

theorem maxInquiryNo_eq_foldDrop_aux (a b : StoreRow) (t : List StoreRow) :
    maxInquiryNo (a :: b :: t) = ((a :: b :: t).drop 1).foldl maxStep 0 := by
  unfold maxInquiryNo
  rw [if_pos (by simp only [List.length_cons]; omega)]

theorem maxInquiryNo_eq_foldDrop (store : Store) :
    maxInquiryNo store = (store.drop 1).foldl maxStep 0 := by
  match store with
  | [] => rfl
  | [a] => rfl
  | a :: b :: t => exact maxInquiryNo_eq_foldDrop_aux a b t

/-- Claim-side description of the max-sequence scan: the maximum over the
cells of all non-header rows that parse as a non-negative integer
(skipping the rest), 0 when there are none. -/
def maxSeqSpec (store : Store) : Nat :=
  ((store.drop 1).filterMap parseCell?).foldl max 0

theorem foldl_maxStep_eq_filterMap (l : List StoreRow) :
    ∀ a, l.foldl maxStep a = (l.filterMap parseCell?).foldl max a := by
  induction l with
  | nil => intro a; rfl
  | cons r t ih =>
    intro a
    cases hp : parseCell? r with
    | none => simp [maxStep, hp, List.filterMap_cons, ih]
    | some n => simp [maxStep, hp, List.filterMap_cons, ih]

theorem maxInquiryNo_eq_spec (store : Store) : maxInquiryNo store = maxSeqSpec store := by
  rw [maxInquiryNo_eq_foldDrop, maxSeqSpec, foldl_maxStep_eq_filterMap]

theorem buildRows_length (m : Nat) (ts inq url orig : String) :
    ∀ (batch : List InquiryRecord) (j : Nat),
      (buildRows m ts inq url orig j batch).length = batch.length := by
  intro batch
  induction batch with
  | nil => intro j; rfl
  | cons r t ih => intro j; simp [buildRows, ih (j + 1)]

theorem buildRows_get? (m : Nat) (ts inq url orig : String) :
    ∀ (batch : List InquiryRecord) (j i : Nat),
      (buildRows m ts inq url orig j batch).get? i =
        (batch.get? i).map (fun r => buildRow (m + j + i + 1) ts inq url r orig) := by
  intro batch
  induction batch with
  | nil => intro j i; simp [buildRows]
  | cons r t ih =>
    intro j i
    cases i with
    | zero => simp [buildRows]
    | succ i =>
      simp only [buildRows, List.get?_cons_succ, ih (j + 1) i]
      have harith : m + (j + 1) + i + 1 = m + j + (i + 1) + 1 := by omega
      simp only [harith]

theorem foldl_maxStep_buildRows (m : Nat) (ts inq url orig : String) :
    ∀ (batch : List InquiryRecord) (j : Nat),
      (buildRows m ts inq url orig j batch).foldl maxStep 0 =
        if batch.isEmpty then 0 else m + j + batch.length := by
  intro batch
  induction batch with
  | nil => intro j; rfl
  | cons r t ih =>
    intro j
    simp only [buildRows, List.foldl_cons, maxStep, parseCell?_buildRow]
    rw [foldl_maxStep_init, ih (j + 1)]
    cases t with
    | nil => simp
    | cons r2 t2 =>
      simp only [List.isEmpty_cons, List.length_cons, Bool.false_eq_true, if_false]
      omega

theorem applyOp_eq (op : PersistOp) (store : Store) :
    applyOp op store = store ++
      buildRows (maxInquiryNo store) op.ts op.inquirer op.url op.original 0 op.batch := rfl

theorem opSeqNums_eq (op : PersistOp) (store : Store) :
    opSeqNums op store =
      (List.range op.batch.length).map (fun i => maxInquiryNo store + i + 1) := rfl

theorem applyOp_ne_nil (op : PersistOp) (store : Store) (h : store ≠ []) :
    applyOp op store ≠ [] := by
  rw [applyOp_eq]
  intro hcon
  exact h (List.append_eq_nil.mp hcon).1

theorem maxInquiryNo_applyOp (op : PersistOp) (store : Store) (h : store ≠ []) :
    maxInquiryNo (applyOp op store) =
      (if op.batch.isEmpty then maxInquiryNo store
       else maxInquiryNo store + op.batch.length) := by
  rw [applyOp_eq, maxInquiryNo_eq_foldDrop]
  have hdrop : ((store ++
      buildRows (maxInquiryNo store) op.ts op.inquirer op.url op.original 0 op.batch).drop 1) =
      store.drop 1 ++
        buildRows (maxInquiryNo store) op.ts op.inquirer op.url op.original 0 op.batch := by
    cases store with
    | nil => exact absurd rfl h
    | cons a t => simp
  rw [hdrop, List.foldl_append, foldl_maxStep_init,
      foldl_maxStep_buildRows _ _ _ _ _ op.batch 0, ← maxInquiryNo_eq_foldDrop]
  cases hb : op.batch.isEmpty with
  | true => simp
  | false => simp only [Bool.false_eq_true, if_false]; omega

/-- Key invariant behind C9: starting from any nonempty store, the sequence
numbers assigned across a series of persist operations are pairwise
strictly increasing and all exceed the store's current maximum. -/
theorem runAssigned_invariant :
    ∀ (ops : List PersistOp) (store : Store), store ≠ [] →
      (runAssigned ops store).Pairwise (· < ·) ∧
        ∀ x ∈ runAssigned ops store, maxInquiryNo store < x := by
  intro ops
  induction ops with
  | nil => intro store _; exact ⟨List.Pairwise.nil, by simp [runAssigned]⟩
  | cons op rest ih =>
    intro store hns
    obtain ⟨ihp, ihb⟩ := ih (applyOp op store) (applyOp_ne_nil op store hns)
    have hmax := maxInquiryNo_applyOp op store hns
    have hnos : ∀ x ∈ opSeqNums op store,
        maxInquiryNo store < x ∧ x ≤ maxInquiryNo store + op.batch.length := by
      intro x hx
      rw [opSeqNums_eq] at hx
      simp only [List.mem_map, List.mem_range] at hx
      obtain ⟨i, hi, rfl⟩ := hx
      omega
    constructor
    · rw [runAssigned, List.pairwise_append]
      refine ⟨?_, ihp, ?_⟩
      · rw [opSeqNums_eq]
        refine List.Pairwise.map _ ?_ (List.pairwise_lt_range _)
        intro a b hab
        show maxInquiryNo store + a + 1 < maxInquiryNo store + b + 1
        omega
      · intro a ha b hb
        have ha2 := (hnos a ha).2
        have hb2 := ihb b hb
        rw [hmax] at hb2
        cases hemp : op.batch.isEmpty with
        | true =>
          rw [opSeqNums_eq] at ha
          simp [List.isEmpty_iff.mp hemp] at ha
        | false =>
          rw [hemp] at hb2
          simp only [Bool.false_eq_true, if_false] at hb2
          omega
    · intro x hx
      rw [runAssigned, List.mem_append] at hx
      rcases hx with hx | hx
      · exact (hnos x hx).1
      · have := ihb x hx
        rw [hmax] at this
        cases hemp : op.batch.isEmpty with
        | true => rw [hemp] at this; simpa using this
        | false =>
          rw [hemp] at this
          simp only [Bool.false_eq_true, if_false] at this
          omega

/-! ## Helper lemmas: calendar arithmetic -/

theorem daysInMonth_pos (y m : Nat) : 0 < daysInMonth y m := by
  unfold daysInMonth
  split_ifs <;> omega

theorem daysBeforeMonth_succ (y m : Nat) (hm : 1 <= m) :
    daysBeforeMonth y (m + 1) = daysBeforeMonth y m + daysInMonth y m := by
  have hm0 : m ≠ 0 := by omega
  simp [daysBeforeMonth, hm0]

theorem daysBeforeMonth_13 (y : Nat) :
    daysBeforeMonth y 13 = 337 + daysInMonth y 2 := by
  have h : daysBeforeMonth y 13 =
      0 + 31 + daysInMonth y 2 + 31 + 30 + 31 + 30 + 31 + 31 + 30 + 31 + 30 + 31 := rfl
  omega

theorem isLeap_iff (y : Nat) :
    isLeap y = true ↔ ((y % 4 = 0 ∧ y % 100 ≠ 0) ∨ y % 400 = 0) := by
  unfold isLeap
  simp [Bool.or_eq_true, Bool.and_eq_true, decide_eq_true_eq]

set_option maxHeartbeats 1000000 in
theorem daysBeforeYear_succ (y : Nat) (hy : 1 <= y) :
    daysBeforeYear (y + 1) = daysBeforeYear y + (if isLeap y then 366 else 365) := by
  obtain ⟨k, rfl⟩ : ∃ k, y = k + 1 := ⟨y - 1, by omega⟩
  cases hl : isLeap (k + 1) with
  | true =>
    have hfacts := (isLeap_iff (k + 1)).mp hl
    simp only [if_true, daysBeforeYear]
    omega
  | false =>
    have hfacts : ¬ (((k + 1) % 4 = 0 ∧ (k + 1) % 100 ≠ 0) ∨ (k + 1) % 400 = 0) := by
      intro hcon
      rw [← isLeap_iff] at hcon
      rw [hl] at hcon
      exact Bool.false_ne_true hcon
    simp only [Bool.false_eq_true, if_false, daysBeforeYear]
    omega

theorem daysInMonth_feb (y : Nat) :
    daysInMonth y 2 = if isLeap y then 29 else 28 := rfl

theorem toOrdinal_nextDay (d : Date) (hd : validDate d) :
    toOrdinal (nextDay d) = toOrdinal d + 1 := by
  obtain ⟨hy, hm1, hm2, hd1, hd2⟩ := hd
  unfold nextDay
  split_ifs with h1 h2
  · simp only [toOrdinal]
    omega
  · simp only [toOrdinal]
    rw [daysBeforeMonth_succ d.year d.month hm1]
    omega
  · have hm : d.month = 12 := by omega
    have hday : d.day = 31 := by
      have : daysInMonth d.year d.month = 31 := by rw [hm]; rfl
      omega
    simp only [toOrdinal]
    have e1 : daysBeforeMonth d.year 13 = 337 + daysInMonth d.year 2 :=
      daysBeforeMonth_13 d.year
    have e2 : daysBeforeMonth d.year 13 = daysBeforeMonth d.year 12 + 31 := by
      have := daysBeforeMonth_succ d.year 12 (by omega)
      norm_num at this
      rw [this]; rfl
    have e3 := daysBeforeYear_succ d.year hy
    have e5 : daysBeforeMonth (d.year + 1) 1 = 0 := rfl
    rw [hm, hday, e5]
    cases hl : isLeap d.year with
    | true =>
      rw [hl] at e3
      have e6 : daysInMonth d.year 2 = 29 := by rw [daysInMonth_feb, hl]; rfl
      simp only [if_true] at e3
      omega
    | false =>
      rw [hl] at e3
      have e6 : daysInMonth d.year 2 = 28 := by rw [daysInMonth_feb, hl]; rfl
      simp only [Bool.false_eq_true, if_false] at e3
      omega

theorem validDate_nextDay (d : Date) (hd : validDate d) : validDate (nextDay d) := by
  obtain ⟨hy, hm1, hm2, hd1, hd2⟩ := hd
  unfold nextDay
  split_ifs with h1 h2
  · unfold validDate
    dsimp only
    exact ⟨hy, hm1, hm2, by omega, by omega⟩
  · unfold validDate
    dsimp only
    exact ⟨hy, by omega, by omega, by omega, daysInMonth_pos _ _⟩
  · unfold validDate
    dsimp only
    exact ⟨by omega, by omega, by omega, by omega, daysInMonth_pos _ _⟩

theorem addDays_succ (n : Nat) (d : Date) :
    addDays (n + 1) d = nextDay (addDays n d) := by
  simp [addDays, Function.iterate_succ_apply']

theorem validDate_addDays (n : Nat) (d : Date) (hd : validDate d) :
    validDate (addDays n d) := by
  induction n with
  | zero => exact hd
  | succ n ih => rw [addDays_succ]; exact validDate_nextDay _ ih

theorem toOrdinal_addDays (n : Nat) (d : Date) (hd : validDate d) :
    toOrdinal (addDays n d) = toOrdinal d + n := by
  induction n with
  | zero => rfl
  | succ n ih =>
    rw [addDays_succ, toOrdinal_nextDay _ (validDate_addDays n d hd), ih]
    omega

theorem weekday_addDays (n : Nat) (d : Date) (hd : validDate d) :
    weekday (addDays n d) = (weekday d + n) % 7 := by
  unfold weekday
  rw [toOrdinal_addDays n d hd]
  omega

theorem weekday_lt_7 (d : Date) : weekday d < 7 := by
  unfold weekday
  omega

/-! ## Claim theorems -/

/-- C1: for every month `N` with `1 ≤ N ≤ 12`, written in ASCII or
full-width digits, and each suffix 中, 末, まで, `normalize("N月<suffix>")`
returns `"Y-MM-DD"` with `Y` the current year, `MM` the zero-padded month
and `DD` the last calendar day of that month in year `Y` under the correct
days-in-month rule (February has 29 days exactly in leap years); all three
suffixes give the identical month-end result. -/
theorem C1_month_end (now : Date) (n : Nat) (hn1 : 1 ≤ n) (hn2 : n ≤ 12)
    (ds sfx : String) (hds : ds = natToStr n ∨ ds = natToStrFW n)
    (hsfx : sfx ∈ (["中", "末", "まで"] : List String)) :
    normalize_due_date now (some (ds ++ "月" ++ sfx)) =
      some (fmtYMD now.year n (daysInMonth now.year n)) ∧
    daysInMonth now.year 2 = (if isLeap now.year then 29 else 28) := by
  refine ⟨?_, rfl⟩
  simp only [List.mem_cons, List.not_mem_nil, or_false] at hsfx
  rcases hds with rfl | rfl <;> rcases hsfx with rfl | rfl | rfl <;>
    interval_cases n <;> rfl

/-- A concrete instance of C1: February of a leap year, full-width digits,
suffix まで. -/
theorem C1_month_end_witness :
    normalize_due_date ⟨2024, 5, 15⟩ (some ("２" ++ "月" ++ "まで")) = some "2024-02-29" := by
  have h := C1_month_end ⟨2024, 5, 15⟩ 2 (by omega) (by omega) "２" "まで"
    (Or.inr (by decide)) (by decide)
  rw [h.1]
  decide

/-- C5: `来月` with optional suffix 末, 中 or まで resolves to the last day
of the month after the current month; the year rolls forward exactly when
`current_month + 1 > 12`, i.e. in December, giving January 31 of the
following year. -/
theorem C5_next_month_aux (now : Date) (hm : now.month ≤ 12) (x : Option String)
    (h : x = (if now.month + 1 > 12 then
        some (fmtYMD (now.year + 1) 1 (daysInMonth (now.year + 1) 1))
      else
        some (fmtYMD now.year (now.month + 1) (daysInMonth now.year (now.month + 1))))) :
    x = some (if now.month = 12 then fmtYMD (now.year + 1) 1 31
          else fmtYMD now.year (now.month + 1) (daysInMonth now.year (now.month + 1))) := by
  subst h
  have e31 : daysInMonth (now.year + 1) 1 = 31 := rfl
  by_cases h12 : now.month = 12
  · simp [h12, e31]
  · have h13 : ¬ (now.month + 1 > 12) := by omega
    simp [h12, h13]

theorem C5_next_month (now : Date) (hm : now.month ≤ 12)
    (sfx : String) (hsfx : sfx ∈ (["", "末", "中", "まで"] : List String)) :
    normalize_due_date now (some ("来月" ++ sfx)) =
      some (if now.month = 12 then fmtYMD (now.year + 1) 1 31
            else fmtYMD now.year (now.month + 1) (daysInMonth now.year (now.month + 1))) := by
  simp only [List.mem_cons, List.not_mem_nil, or_false] at hsfx
  rcases hsfx with rfl | rfl | rfl | rfl <;> exact C5_next_month_aux now hm _ rfl

/-- A concrete instance of C5: December 2024 rolls to 2025-01-31. -/
theorem C5_next_month_witness :
    normalize_due_date ⟨2024, 12, 5⟩ (some ("来月" ++ "末")) = some "2025-01-31" := by
  have h := C5_next_month ⟨2024, 12, 5⟩ (by decide) "末" (by decide)
  rw [h]
  decide

/-- C6: with Monday=0…Sunday=6 weekday numbering, `来週` (optional suffix
末 or まで) resolves to today plus `(7 − weekday) + 6` days — the Sunday of
next week — and `今週末`/`今週まで` resolve to today plus `6 − weekday`
days — the Sunday of the current week, today itself when today is Sunday. -/
theorem C6_week_end (now : Date) (hv : validDate now) :
    (∀ sfx ∈ (["", "末", "まで"] : List String),
      normalize_due_date now (some ("来週" ++ sfx)) =
        some (fmtDate (addDays (7 - weekday now + 6) now)) ∧
      weekday (addDays (7 - weekday now + 6) now) = 6) ∧
    (∀ sfx ∈ (["末", "まで"] : List String),
      normalize_due_date now (some ("今週" ++ sfx)) =
        some (fmtDate (addDays (6 - weekday now) now)) ∧
      weekday (addDays (6 - weekday now) now) = 6 ∧
      (weekday now = 6 → addDays (6 - weekday now) now = now)) := by
  have hw : weekday now < 7 := weekday_lt_7 now
  constructor
  · intro sfx hsfx
    simp only [List.mem_cons, List.not_mem_nil, or_false] at hsfx
    rcases hsfx with rfl | rfl | rfl <;>
      exact ⟨rfl, by rw [weekday_addDays _ _ hv]; omega⟩
  · intro sfx hsfx
    simp only [List.mem_cons, List.not_mem_nil, or_false] at hsfx
    have hsun : weekday now = 6 → addDays (6 - weekday now) now = now := by
      intro h6
      rw [h6]
      show addDays 0 now = now
      rfl
    rcases hsfx with rfl | rfl <;>
      exact ⟨rfl, by rw [weekday_addDays _ _ hv]; omega, hsun⟩

/-- A concrete instance of C6: from Tuesday 2024-01-30, 来週末 lands on
Sunday 2024-02-11 and 今週末 on Sunday 2024-02-04. -/
theorem C6_week_end_witness :
    normalize_due_date ⟨2024, 1, 30⟩ (some ("来週" ++ "末")) = some "2024-02-11" ∧
    normalize_due_date ⟨2024, 1, 30⟩ (some ("今週" ++ "末")) = some "2024-02-04" := by
  have h := C6_week_end ⟨2024, 1, 30⟩ (by decide)
  have h1 := h.1 "末" (by decide)
  have h2 := h.2 "末" (by decide)
  exact ⟨by rw [h1.1]; decide, by rw [h2.1]; decide⟩

/-! ## Helper lemmas: pattern matching inside the normalizer -/

theorem mem_takeWhile_pred {p : Char → Bool} :
    ∀ (l : List Char) (c : Char), c ∈ l.takeWhile p → p c = true := by
  intro l
  induction l with
  | nil => intro c hc; simp [List.takeWhile] at hc
  | cons a t ih =>
    intro c hc
    rw [List.takeWhile] at hc
    cases hp : p a with
    | true =>
      rw [hp] at hc
      rcases List.mem_cons.mp hc with rfl | hc2
      · exact hp
      · exact ih c hc2
    | false => rw [hp] at hc; simp at hc

theorem matchesYMD_length (l : List Char) (hm : matchesYMD l = true) :
    l.length = 10 ∨ l.length = 11 := by
  unfold matchesYMD at hm
  split at hm
  · rename_i a b c d e f g h rest
    simp only [Bool.and_eq_true, Bool.or_eq_true, decide_eq_true_eq] at hm
    rcases hm.2 with h2 | h2 <;> subst h2 <;> simp
  · simp at hm

/-- A successful `searchNumPat` always captures a nonempty group of digit
characters. -/
theorem searchNumPat_digits (marker : Char) (sfxs : List (List Char)) :
    ∀ l run sfx, searchNumPat marker sfxs l = some (run, sfx) →
      run ≠ [] ∧ ∀ c ∈ run, isDigitFW c = true := by
  intro l
  induction l with
  | nil => intro run sfx h; simp [searchNumPat] at h
  | cons c rest ih =>
    intro run sfx h
    rw [searchNumPat] at h
    by_cases hd : isDigitFW c
    · rw [if_pos hd] at h
      cases hdw : rest.dropWhile isDigitFW with
      | nil => rw [hdw] at h; exact ih run sfx h
      | cons m a2 =>
        rw [hdw] at h
        dsimp only at h
        by_cases hmk : m = marker
        · rw [if_pos hmk] at h
          cases hf : sfxs.find? (fun s => isPrefixCh s a2) with
          | none => rw [hf] at h; exact ih run sfx h
          | some s0 =>
            rw [hf] at h
            simp only [Option.some.injEq, Prod.mk.injEq] at h
            obtain ⟨hrun, hsfx⟩ := h
            subst hrun
            refine ⟨by simp, ?_⟩
            intro x hx
            rcases List.mem_cons.mp hx with rfl | hx2
            · exact hd
            · exact mem_takeWhile_pred rest x hx2
        · rw [if_neg hmk] at h; exact ih run sfx h
    · rw [if_neg hd] at h; exact ih run sfx h

theorem toHalfwidth_isDigit (c : Char) (h : isDigitFW c = true) :
    (toHalfwidth c).isDigit = true := by
  simp only [isDigitFW, Bool.or_eq_true, Bool.and_eq_true, decide_eq_true_eq] at h
  rcases h with h | ⟨h1, h2⟩
  · have hn : c.toNat ≤ 57 := by
      simp only [Char.isDigit, Bool.and_eq_true, decide_eq_true_eq] at h
      exact h.2
    unfold toHalfwidth
    rw [if_neg (by omega)]
    exact h
  · unfold toHalfwidth
    rw [if_pos ⟨h1, h2⟩]
    have hv : c.toNat - 0xFEE0 = 48 + (c.toNat - 0xFF10) := by omega
    rw [hv]
    have hlt : c.toNat - 0xFF10 < 10 := by omega
    set k := c.toNat - 0xFF10 with hk
    interval_cases k <;> decide

/-- The translated digit group of a match always parses (`int` never
raises on it, so the `except ValueError` fall-through is dead code). -/
theorem pyInt?_isSome_of_digits (run : List Char) (hne : run ≠ [])
    (hall : ∀ c ∈ run, isDigitFW c = true) :
    (pyInt? (run.map toHalfwidth)).isSome = true := by
  unfold pyInt?
  rw [if_neg (by simp [List.isEmpty_iff, hne])]
  rw [if_pos (by
    rw [List.all_eq_true]
    intro x hx
    rcases List.mem_map.mp hx with ⟨c, hc, rfl⟩
    exact toHalfwidth_isDigit c (hall c hc))]
  rfl

/-- C7 (code bug): the claim — like the function's own docstring ("returns
the original string when it cannot convert") and spec §4.1 ("normalization
never fails the overall pipeline") — promises that `normalize_due_date`
never raises.  The `N日後` branch, however, computes
`now + timedelta(days=days)` under a guard that catches only `ValueError`
(main.py lines 113-118).  With now = 2024-01-30, the input "3000000日後"
parses, reaches that addition, and passes the year-9999 `datetime` bound,
so the program raises an uncaught `OverflowError` instead of returning;
a small count such as "3日後" stays in range and returns normally. -/
theorem C7_overflow_code_bug :
    normalize_due_date_raises ⟨2024, 1, 30⟩ (some "3000000日後") = true ∧
    searchNumPat '日' [['後'], ['以', '内'], ['ま', 'で']] "3000000日後".data =
      some (['3', '0', '0', '0', '0', '0', '0'], ['後']) ∧
    pyInt? (['3', '0', '0', '0', '0', '0', '0'].map toHalfwidth) = some 3000000 ∧
    toOrdinal ⟨2024, 1, 30⟩ + 3000000 > dateMaxOrdinal ∧
    dateMaxOrdinal = toOrdinal ⟨9999, 12, 31⟩ ∧
    normalize_due_date_raises ⟨2024, 1, 30⟩ (some "3日後") = false ∧
    normalize_due_date ⟨2024, 1, 30⟩ (some "3日後") = some "2024-02-02" := by
  refine ⟨by decide, by decide, by decide, by decide, by decide, by decide, by decide⟩


/-- C4 (amended): the orchestrator applies the Date Normalizer to a
record's due-date exactly when the field is present and non-empty; a
record whose due-date is `null` or absent keeps it unchanged (which agrees
with `normalize(null) = null`), but an extracted empty-string due-date is
kept as `""` even though the normalizer maps `""` to `null`. -/
theorem C4_due_date_normalization (now : Date) (batch : List InquiryRecord) :
    (applyDueDateNormalization now batch).map (fun r => r.due_date) =
      batch.map (fun r =>
        match r.due_date with
        | none => none
        | some t => if t = "" then some "" else normalize_due_date now (some t)) ∧
    normalize_due_date now none = none := by
  refine ⟨?_, rfl⟩
  unfold applyDueDateNormalization
  rw [List.map_map]
  apply List.map_congr_left
  intro r hr
  cases hdd : r.due_date with
  | none => simp [Function.comp, hdd]
  | some t =>
    by_cases ht : t = ""
    · subst ht
      simp [Function.comp, hdd]
    · simp [Function.comp, hdd, ht]

/-- C4 counterexample: a record extracted with due-date `""` keeps `""`,
while the normalizer maps `""` to `null` — so the batch returned by the
orchestrator does not have `due_date = normalize(d)` for every record. -/
theorem C4_counterexample :
    (applyDueDateNormalization ⟨2024, 1, 30⟩
        [⟨none, none, [], none, some ""⟩]).map (fun r => r.due_date) = [some ""] ∧
    normalize_due_date ⟨2024, 1, 30⟩ (some "") = none ∧
    some "" ≠ (none : Option String) := by
  exact ⟨by decide, rfl, by decide⟩

/-- C2: validation rejects a batch exactly when it is empty or some record
carries the account-management tag with a falsy `target_email`; an empty
batch gets the "could not read" reply and a tag violation the
"email required" reply, in both cases with the store untouched (nothing
persisted); otherwise the batch goes unchanged to the persister. -/
theorem C2_validation (inquirer original url ts : String)
    (batch : List InquiryRecord) (store : Store) :
    ((∃ m, validateBatch batch = .rejected m) ↔
      (batch = [] ∨ ∃ r ∈ batch, hasMarker r = true ∧ emailMissing r = true)) ∧
    (batch = [] →
      validateAndPersist inquirer batch original url ts store =
        (.rejectedEmpty msgEmpty, store)) ∧
    (batch ≠ [] → (∃ r ∈ batch, hasMarker r = true ∧ emailMissing r = true) →
      validateAndPersist inquirer batch original url ts store =
        (.rejectedEmail msgEmail, store)) ∧
    (¬ (batch = [] ∨ ∃ r ∈ batch, hasMarker r = true ∧ emailMissing r = true) →
      validateAndPersist inquirer batch original url ts store =
        (.persisted ((List.range batch.length).map fun i => store.length + i + 1)
            ((List.range batch.length).map fun i => maxInquiryNo store + i + 1),
         store ++ buildRows (maxInquiryNo store) ts inquirer url original 0 batch)) := by
  have hiff : (∃ r ∈ batch, hasMarker r = true ∧ emailMissing r = true) ↔
      (batch.find? violatesEmailRule).isSome = true := by
    rw [List.find?_isSome]
    constructor
    · rintro ⟨r, hr, h1, h2⟩
      exact ⟨r, hr, by simp [violatesEmailRule, Bool.and_eq_true, h1, h2]⟩
    · rintro ⟨r, hr, hv⟩
      rw [violatesEmailRule, Bool.and_eq_true] at hv
      exact ⟨r, hr, hv⟩
  refine ⟨?_, ?_, ?_, ?_⟩
  · constructor
    · rintro ⟨m, hm⟩
      unfold validateBatch at hm
      by_cases hb : batch.isEmpty
      · exact Or.inl (List.isEmpty_iff.mp hb)
      · rw [if_neg hb] at hm
        cases hf : batch.find? violatesEmailRule with
        | none => rw [hf] at hm; exact absurd hm (by simp)
        | some r => exact Or.inr (hiff.mpr (by simp [hf]))
    · intro h
      rcases h with rfl | hex
      · exact ⟨msgEmpty, rfl⟩
      · unfold validateBatch
        by_cases hb : batch.isEmpty
        · rw [if_pos hb]; exact ⟨msgEmpty, rfl⟩
        · rw [if_neg hb]
          cases hf : batch.find? violatesEmailRule with
          | none => rw [hf] at hiff; exact absurd (hiff.mp hex) (by simp)
          | some r => exact ⟨msgEmail, rfl⟩
  · rintro rfl
    rfl
  · intro hne hex
    have hv : validateBatch batch = .rejected msgEmail := by
      unfold validateBatch
      rw [if_neg (by simpa [List.isEmpty_iff] using hne)]
      cases hf : batch.find? violatesEmailRule with
      | none => rw [hf] at hiff; exact absurd (hiff.mp hex) (by simp)
      | some r => rfl
    unfold validateAndPersist
    rw [hv]
    dsimp only
    rw [if_neg (show ¬ (msgEmail = msgEmpty) by decide)]
  · intro h
    push_neg at h
    obtain ⟨hne, hnex⟩ := h
    have hv : validateBatch batch = .accepted := by
      unfold validateBatch
      rw [if_neg (by simpa [List.isEmpty_iff] using hne)]
      have hf : batch.find? violatesEmailRule = none := by
        cases hf : batch.find? violatesEmailRule with
        | none => rfl
        | some r =>
          exact absurd (hiff.mpr (by simp [hf])) (by simpa using hnex)
      rw [hf]
    unfold validateAndPersist
    rw [hv]
    dsimp only [write_to_spreadsheet]

/-- A concrete instance of C2: a marker-tagged record without an email is
rejected with the email message and nothing is written; an empty batch is
rejected with the empty-batch message. -/
theorem C2_validation_witness :
    validateAndPersist "i" [⟨none, none, [some "アカウント管理"], none, none⟩]
        "m" "u" "t" [["No"]] = (.rejectedEmail msgEmail, [["No"]]) ∧
    validateAndPersist "i" [] "m" "u" "t" [["No"]] = (.rejectedEmpty msgEmpty, [["No"]]) :=
  ⟨(C2_validation "i" "m" "u" "t" _ [["No"]]).2.2.1 (by decide)
      ⟨⟨none, none, [some "アカウント管理"], none, none⟩, by decide, by decide, by decide⟩,
    (C2_validation "i" "m" "u" "t" [] [["No"]]).2.1 rfl⟩

/-- C8: every persisted row has exactly 14 cells with exactly 5 tag slots
at positions 4–8: entries beyond the tag list's length are empty strings
(padding), only the first 5 entries are used (truncation, order
preserved), and a `null` or empty entry among the first 5 becomes `""`. -/
theorem C8_tag_slots (no : Nat) (ts inquirer url original : String) (r : InquiryRecord) :
    (buildRow no ts inquirer url r original).length = 14 ∧
    (tagSlots r.tags).length = 5 ∧
    (∀ i, i < 5 → r.tags.length ≤ i → (tagSlots r.tags).get? i = some "") ∧
    (∀ i, i < 5 → ∀ t, r.tags.get? i = some (some t) → t ≠ "" →
      (tagSlots r.tags).get? i = some t) ∧
    (∀ i, i < 5 → (r.tags.get? i = some none ∨ r.tags.get? i = some (some "")) →
      (tagSlots r.tags).get? i = some "") ∧
    (∀ i, i < 5 → (buildRow no ts inquirer url r original).get? (4 + i) =
      (tagSlots r.tags).get? i) := by
  refine ⟨by simp [buildRow, tagSlots], by simp [tagSlots], ?_, ?_, ?_, ?_⟩
  · intro i hi hlen
    have hnone : r.tags.get? i = none := List.get?_eq_none.mpr hlen
    unfold tagSlots
    rw [List.get?_map, List.get?_range hi, Option.map_some']
    rw [hnone]
  · intro i hi t ht htne
    unfold tagSlots
    rw [List.get?_map, List.get?_range hi, Option.map_some']
    rw [ht]
    dsimp only
    rw [if_neg htne]
  · intro i hi ht
    rcases ht with ht | ht
    · unfold tagSlots
      rw [List.get?_map, List.get?_range hi, Option.map_some']
      rw [ht]
    · unfold tagSlots
      rw [List.get?_map, List.get?_range hi, Option.map_some']
      rw [ht]
      rfl
  · intro i hi
    have hlen5 : (tagSlots r.tags).length = 5 := by simp [tagSlots]
    unfold buildRow
    rw [List.get?_append (by simp only [List.length_append, List.length_cons,
      List.length_nil, hlen5]; omega)]
    rw [List.get?_append_right (by simp)]
    simp

/-- A concrete instance of C8: a 7-entry tag list with a `null` and an
empty entry persists as exactly the 5 slots `["a", "", "", "b", "c"]`. -/
theorem C8_tag_slots_witness :
    (tagSlots [some "a", none, some "", some "b", some "c", some "d", some "e"]).get? 1 =
      some "" ∧
    (tagSlots [some "a", none, some "", some "b", some "c", some "d", some "e"]).get? 3 =
      some "b" ∧
    (buildRow 3 "t" "i" "u"
        ⟨none, none, [some "a", none, some "", some "b", some "c", some "d", some "e"],
         none, none⟩ "m").length = 14 :=
  ⟨(C8_tag_slots 3 "t" "i" "u" "m"
        ⟨none, none, [some "a", none, some "", some "b", some "c", some "d", some "e"],
         none, none⟩).2.2.2.2.1 1 (by omega) (Or.inl (by decide)),
   (C8_tag_slots 3 "t" "i" "u" "m"
        ⟨none, none, [some "a", none, some "", some "b", some "c", some "d", some "e"],
         none, none⟩).2.2.2.1 3 (by omega) "b" (by decide) (by decide),
   (C8_tag_slots 3 "t" "i" "u" "m"
        ⟨none, none, [some "a", none, some "", some "b", some "c", some "d", some "e"],
         none, none⟩).1⟩

/-- C3: the persister derives `max_existing_sequence` as the maximum
sequence-number cell over all non-header rows that parse as a non-negative
integer (others skipped; an empty or header-only store yields 0, since the
fold then runs over no rows), and assigns `max + i` to the `i`-th record
(1-based), in batch order; the `i`-th appended row is built from the
`i`-th record of the batch with exactly that number. -/
theorem C3_sequence_assignment (inquirer original url ts : String)
    (batch : List InquiryRecord) (store : Store) :
    maxInquiryNo store = maxSeqSpec store ∧
    (write_to_spreadsheet inquirer batch original url ts store).2.2 =
      (List.range batch.length).map (fun i => maxSeqSpec store + i + 1) ∧
    (∀ i, i < batch.length →
      ((write_to_spreadsheet inquirer batch original url ts store).2.2).get? i =
        some (maxSeqSpec store + i + 1)) ∧
    (∀ i (hi : i < batch.length),
      ((write_to_spreadsheet inquirer batch original url ts store).1).get?
          (store.length + i) =
        some (buildRow (maxSeqSpec store + i + 1) ts inquirer url
          (batch.get ⟨i, hi⟩) original)) := by
  have hms := maxInquiryNo_eq_spec store
  refine ⟨hms, ?_, ?_, ?_⟩
  · rw [show (write_to_spreadsheet inquirer batch original url ts store).2.2 =
      (List.range batch.length).map (fun i => maxInquiryNo store + i + 1) from rfl, hms]
  · intro i hi
    rw [show (write_to_spreadsheet inquirer batch original url ts store).2.2 =
      (List.range batch.length).map (fun i => maxInquiryNo store + i + 1) from rfl]
    rw [List.get?_map, List.get?_range hi, Option.map_some', hms]
  · intro i hi
    rw [show (write_to_spreadsheet inquirer batch original url ts store).1 =
      store ++ buildRows (maxInquiryNo store) ts inquirer url original 0 batch from rfl]
    rw [List.get?_append_right (by omega)]
    have harith : store.length + i - store.length = i := by omega
    rw [harith, buildRows_get?, List.get?_eq_get hi, Option.map_some']
    have harith2 : maxInquiryNo store + 0 + i + 1 = maxSeqSpec store + i + 1 := by
      omega
    rw [harith2]

/-- A concrete instance of C3: a store whose maximum is 7 and a 3-record
batch yield sequence numbers 8, 9, 10 in input order. -/
theorem C3_sequence_assignment_witness :
    (write_to_spreadsheet "i" [⟨none, none, [], none, none⟩, ⟨none, none, [], none, none⟩,
        ⟨none, none, [], none, none⟩] "m" "u" "t" [["No"], ["7"]]).2.2 = [8, 9, 10] := by
  have h := (C3_sequence_assignment "i" "m" "u" "t"
    [⟨none, none, [], none, none⟩, ⟨none, none, [], none, none⟩,
     ⟨none, none, [], none, none⟩] [["No"], ["7"]]).2.1
  rw [h]
  decide

/-- C9 (amended): provided the backing store starts nonempty (it always
holds at least its header row), every series of persist operations run one
after another against the store — which only these operations modify —
assigns a pairwise strictly increasing list of sequence numbers: strictly
increasing within each batch and across operations, and no number is ever
assigned twice.  (With an initially *empty* store the claim fails, see the
counterexample: the first written row is later mistaken for the header.) -/
theorem C9_sequence_monotonic (ops : List PersistOp) (store : Store) (h : store ≠ []) :
    (runAssigned ops store).Pairwise (· < ·) ∧
    (runAssigned ops store).Nodup ∧
    ∀ x ∈ runAssigned ops store, maxInquiryNo store < x := by
  obtain ⟨hp, hb⟩ := runAssigned_invariant ops store h
  exact ⟨hp, hp.imp (fun hlt => Nat.ne_of_lt hlt), hb⟩

/-- C9 counterexample: against an initially empty store, two successive
single-record persists both assign sequence number 1 — the number is
reused, because the second read treats the first written row as the
header. -/
theorem C9_counterexample :
    runAssigned
      [⟨"i", [⟨none, none, [], none, none⟩], "m", "u", "t"⟩,
       ⟨"i", [⟨none, none, [], none, none⟩], "m", "u", "t"⟩] [] = [1, 1] ∧
    ¬ ([1, 1] : List Nat).Pairwise (· < ·) ∧
    ¬ ([1, 1] : List Nat).Nodup := by
  refine ⟨by decide, by decide, by decide⟩

/-- A concrete instance of C9: from a store holding only a header row, two
single-record persists assign 1 then 2, pairwise increasing. -/
theorem C9_sequence_monotonic_witness :
    (runAssigned
      [⟨"i", [⟨none, none, [], none, none⟩], "m", "u", "t"⟩,
       ⟨"i", [⟨none, none, [], none, none⟩], "m", "u", "t"⟩] [["No"]]).Pairwise (· < ·) ∧
    runAssigned
      [⟨"i", [⟨none, none, [], none, none⟩], "m", "u", "t"⟩,
       ⟨"i", [⟨none, none, [], none, none⟩], "m", "u", "t"⟩] [["No"]] = [1, 2] :=
  ⟨(C9_sequence_monotonic
      [⟨"i", [⟨none, none, [], none, none⟩], "m", "u", "t"⟩,
       ⟨"i", [⟨none, none, [], none, none⟩], "m", "u", "t"⟩] [["No"]] (by decide)).1,
   by decide⟩

/-- C10 (amended): when the message text, after removal of **all** mention
tokens (each with its trailing whitespace) and surrounding-whitespace
strip, exceeds 1000 characters, the handler replies with the too-long
message stating that character count, returns HTTP 200, and leaves the
store untouched without invoking the extractor (the result is the same for
every extractor). -/
theorem C10_length_gate (extractor : String → List InquiryRecord)
    (inquirer url ts text : String) (store : Store)
    (h : (cleanedText text).length > 1000) :
    handleMention extractor inquirer url ts text store =
      (.tooLong (tooLongReply (cleanedText text).length), 200, store) := by
  unfold handleMention
  rw [if_pos h]

set_option maxRecDepth 40000 in
/-- C10 counterexample: a message with a second mention embedded mid-text.
After removing only the *leading* mention (the claim's reading) the text
has 1003 > 1000 characters, yet the handler does not send the too-long
reply: it removes the embedded mention too, measures 997 characters, and
proceeds to extraction. -/
theorem C10_counterexample :
    (leadingMentionStrip ("<@AAA> " ++ (⟨List.replicate 997 'x'⟩ : String) ++
        "<@BBB> ")).length = 1003 ∧
    (cleanedText ("<@AAA> " ++ (⟨List.replicate 997 'x'⟩ : String) ++ "<@BBB> ")).length
        = 997 ∧
    (handleMention (fun _ => []) "i" "u" "t"
        ("<@AAA> " ++ (⟨List.replicate 997 'x'⟩ : String) ++ "<@BBB> ") []).1 =
      .handled (.rejectedEmpty msgEmpty) := by
  refine ⟨by decide, by decide, by decide⟩

set_option maxRecDepth 40000 in
/-- A concrete instance of C10: a 1001-character message is refused with
the count in the reply and nothing reaches extraction or the store. -/
theorem C10_length_gate_witness :
    handleMention (fun _ => []) "i" "u" "t" (⟨List.replicate 1001 'x'⟩ : String) [["No"]] =
      (.tooLong (tooLongReply 1001), 200, [["No"]]) := by
  have h := C10_length_gate (fun _ => []) "i" "u" "t"
    (⟨List.replicate 1001 'x'⟩ : String) [["No"]] (by decide)
  rw [h]
  decide

end SejBot
